import Mathlib

/-!
Verification of the track/clip/mix consistency engine of a non-linear
video editing timeline.  The engine itself (Timeline, Track, Clip, Mix,
Group, UndoStack) is modelled from its specification; the repository's
test file `tests/mixtest.cpp` pins the concrete scenarios that the
theorems below replay.
-/

namespace Timeline

/-- Track kind: audio or video. -/
inductive TKind where
  | audio
  | video
deriving DecidableEq, Repr

/-- Modelled from the spec: a Track has an identifier, an ordering index
(given by its position in the timeline's track list) and an audio/video
kind flag. -/
structure Track where
  id : Nat
  kind : TKind
deriving DecidableEq, Repr

/-- Modelled from the spec: a Clip is a placed instance of a media asset
on a track: owning track id, position, length, internal lane index
(0 or 1), its kind, and an optional link to the mirrored audio/video
partner clip of an audio-video asset. -/
structure Clip where
  id : Nat
  track : Nat
  pos : Int
  len : Int
  lane : Nat
  kind : TKind
  partner : Option Nat
deriving DecidableEq, Repr

/-- Modelled from the spec: a Mix links an earlier and a later clip,
adjacent in time on the same track, with a duration split into a
"before" and an "after" portion around the cut point. -/
structure Mix where
  id : Nat
  track : Nat
  earlier : Nat
  later : Nat
  beforeD : Int
  afterD : Int
deriving DecidableEq, Repr

/-- Asset kind held by the external bin collaborator. -/
inductive AKind where
  | av
  | color
deriving DecidableEq, Repr

/-- Modelled from the spec: bin asset metadata (`resolveAsset`). -/
structure Asset where
  id : Nat
  kind : AKind
  duration : Int
deriving DecidableEq, Repr

/-- Modelled from the spec: the Timeline model: registries of tracks,
clips, mixes and groups plus the asset bin and a fresh-id counter. -/
structure Model where
  tracks : List Track
  clips : List Clip
  mixes : List Mix
  groups : List (List Nat)
  bin : List Asset
  nextId : Nat
deriving DecidableEq, Repr

/-- Error taxonomy of the spec (§7). -/
inductive Err where
  | PlacementConflict
  | InvalidTrack
  | InvalidSize
  | NoEligibleNeighbor
  | MixAlreadyExists
  | InsufficientMembers
  | AlreadyGrouped
  | UnknownAsset
  | UnknownEntity
deriving DecidableEq, Repr

/-! ### Query surface -/

def findClip (m : Model) (cid : Nat) : Option Clip :=
  m.clips.find? (fun c => c.id == cid)

def findTrack (m : Model) (tid : Nat) : Option Track :=
  m.tracks.find? (fun t => t.id == tid)

def findAsset (m : Model) (aid : Nat) : Option Asset :=
  m.bin.find? (fun a => a.id == aid)

def getClipsCount (m : Model) : Nat := m.clips.length

def getClipPosition (m : Model) (cid : Nat) : Option Int :=
  (findClip m cid).map Clip.pos

def getClipPlaytime (m : Model) (cid : Nat) : Option Int :=
  (findClip m cid).map Clip.len

/-- The clip's internal lane (`getSubPlaylistIndex` in the test file). -/
def getClipLane (m : Model) (cid : Nat) : Option Nat :=
  (findClip m cid).map Clip.lane

/-- Number of mixes currently registered on a track. -/
def mixCount (m : Model) (tid : Nat) : Nat :=
  (m.mixes.filter (fun x => x.track == tid)).length

/-- Two half-open frame intervals overlap by at least one frame. -/
def overlaps (p1 l1 p2 l2 : Int) : Bool :=
  p2 < p1 + l1 && p1 < p2 + l2

/-- Are two clips linked by a mix (in either role order)? -/
def mixLinked (m : Model) (i j : Nat) : Bool :=
  m.mixes.any (fun x => (x.earlier == i && x.later == j) ||
                        (x.earlier == j && x.later == i))

/-- Does some mix have this clip as its later partner? -/
def hasLaterMix (m : Model) (cid : Nat) : Bool :=
  m.mixes.any (fun x => x.later == cid)

/-! ### Mix maintenance (cascading side effects) -/

/-- Modelled from the spec: a mix is valid when its two linked clips
exist, reside on the same track, and their extents overlap by at least
one frame. -/
def mixValid (m : Model) (x : Mix) : Bool :=
  match findClip m x.earlier, findClip m x.later with
  | some a, some b => a.track == b.track && overlaps a.pos a.len b.pos b.len
  | _, _ => false

/-- Modelled from the spec (`recomputeDuration`): clamp the before/after
split of a mix to the current overlap of its two clips and refresh the
owning-track reference. -/
def recomputeMix (m : Model) (x : Mix) : Mix :=
  match findClip m x.earlier, findClip m x.later with
  | some a, some b =>
      let o := a.pos + a.len - b.pos
      { x with track := a.track
               beforeD := min x.beforeD o
               afterD := min x.afterD (o - min x.beforeD o) }
  | _, _ => x

/-- Modelled from the spec: the deterministic cascading pass run after
every already-validated structural change: every mix whose clips no
longer overlap on a common track is destroyed and its later clip is
returned to lane 0; every surviving mix is recomputed. -/
def refreshMixes (m : Model) : Model :=
  { m with
    mixes := (m.mixes.filter (fun x => mixValid m x)).map (fun x => recomputeMix m x)
    clips := m.clips.map (fun c =>
      if m.mixes.any (fun x => !(mixValid m x) && x.later == c.id) then
        { c with lane := 0 }
      else c) }

/-! ### mixClip -/

def defaultBefore : Int := 12

def defaultAfter : Int := 13

/-- Modelled from the spec: the eligible neighbor pair for `mixClip`:
the clip exactly touching the given clip's start (preferred), else the
clip exactly touching its end, else an overlapping clip on the same
track; ordered as (earlier, later) by start position. -/
def findMixPair (m : Model) (c : Clip) : Option (Clip × Clip) :=
  match m.clips.find? (fun d => d.id != c.id && d.track == c.track &&
                                 d.pos + d.len == c.pos) with
  | some d => some (d, c)
  | none =>
    match m.clips.find? (fun d => d.id != c.id && d.track == c.track &&
                                   c.pos + c.len == d.pos) with
    | some d => some (c, d)
    | none =>
      match m.clips.find? (fun d => d.id != c.id && d.track == c.track &&
                                     overlaps d.pos d.len c.pos c.len) with
      | some d =>
        if d.pos < c.pos then some (d, c)
        else if c.pos < d.pos then some (c, d)
        else none
      | none => none

/-- Modelled from the spec: room check before creating a mix: the
earlier clip extended to cut+after and the later clip pulled back to
cut-before must stay inside the track without touching any third clip
in the respective lanes, and positions must stay nonnegative. -/
def mixRoomOk (m : Model) (a b : Clip) : Bool :=
  let cut := b.pos
  let aEnd := cut + defaultAfter
  let bPos := cut - defaultBefore
  decide (0 ≤ bPos) &&
  m.clips.all (fun d => d.id == a.id || d.id == b.id || d.track != a.track ||
     !(d.lane == a.lane) || !(overlaps a.pos (aEnd - a.pos) d.pos d.len)) &&
  m.clips.all (fun d => d.id == a.id || d.id == b.id || d.track != a.track ||
     !(d.lane == 1) || !(overlaps bPos (b.pos + b.len - bPos) d.pos d.len))

/-- Modelled from the spec: unchecked application of a mix creation on
the clip pair (aId = earlier, bId = later): extend the earlier clip to
cut + after, pull the later clip's start back to cut - before, shift
the later clip to lane 1 and register the mix with the default split. -/
def applyMixPair (m : Model) (aId bId : Nat) : Model :=
  match findClip m aId, findClip m bId with
  | some a, some b =>
    let cut := b.pos
    { m with
      clips := m.clips.map (fun c =>
        if c.id == aId then { c with len := cut + defaultAfter - c.pos }
        else if c.id == bId then
          { c with pos := cut - defaultBefore, len := c.len + defaultBefore, lane := 1 }
        else c)
      mixes := m.mixes ++ [{ id := m.nextId, track := a.track, earlier := aId,
                             later := bId, beforeD := defaultBefore,
                             afterD := defaultAfter }]
      nextId := m.nextId + 1 }
  | _, _ => m

/-- Modelled from the spec (§4.4 `mixClip`): create a mix between the
given clip and its unique adjacent neighbor, shifting the later clip to
lane 1; for an audio-video clip the same is done for the mirrored
partner pair on the partner track in the same atomic step.  Fails with
`NoEligibleNeighbor` when no adjacent clip exists and with
`MixAlreadyExists` when the pair is already linked. -/
def mixClip (m : Model) (cid : Nat) : Except Err Model :=
  match findClip m cid with
  | none => .error .UnknownEntity
  | some c =>
    match findMixPair m c with
    | none => .error .NoEligibleNeighbor
    | some (a, b) =>
      if hasLaterMix m b.id || mixLinked m a.id b.id then
        .error .MixAlreadyExists
      else if !(mixRoomOk m a b) then .error .PlacementConflict
      else
        let m1 := applyMixPair m a.id b.id
        match a.partner, b.partner with
        | some ap, some bp =>
          match findClip m1 ap, findClip m1 bp with
          | some a2, some b2 =>
            if a2.track == b2.track && a2.pos + a2.len == b2.pos &&
               !(hasLaterMix m1 b2.id) && mixRoomOk m1 a2 b2 then
              .ok (applyMixPair m1 ap bp)
            else .error .NoEligibleNeighbor
          | _, _ => .error .UnknownEntity
        | _, _ => .ok m1

/-! ### Clip insertion -/

/-- Index of a track in the timeline's ordered track list. -/
def trackIdx (m : Model) (tid : Nat) : Option Nat :=
  m.tracks.findIdx? (fun t => t.id == tid)

/-- Modelled from the spec: the mirrored audio track bound to a video
track: the i-th video track (in track order) maps to the i-th audio
track counted from the end of the audio track list. -/
def mirrorAudioTrack (m : Model) (tid : Nat) : Option Nat :=
  let videos := m.tracks.filter (fun t => t.kind == TKind.video)
  let audios := m.tracks.filter (fun t => t.kind == TKind.audio)
  match videos.findIdx? (fun t => t.id == tid) with
  | none => none
  | some i =>
    match audios[audios.length - 1 - i]? with
    | none => none
    | some t => some t.id

/-- Would a clip interval conflict with an existing lane-0 clip of the
track? -/
def insertConflict (m : Model) (tid : Nat) (pos len : Int) : Bool :=
  m.clips.any (fun d => d.track == tid && d.lane == 0 &&
                         overlaps pos len d.pos d.len)

/-- Modelled from the spec (§4.4 `requestClipInsertion`): resolve the
asset in the bin, then create a lane-0 clip at the requested position;
an audio-video asset additionally creates its partner clip on the
mirrored audio track, both linked, in the same step.  Returns the new
(main) clip id. -/
def requestClipInsertion (m : Model) (aid tid : Nat) (pos : Int) :
    Except Err (Model × Nat) :=
  match findAsset m aid with
  | none => .error .UnknownAsset
  | some asset =>
    match findTrack m tid with
    | none => .error .UnknownEntity
    | some tk =>
      if tk.kind != TKind.video then .error .InvalidTrack
      else if asset.duration ≤ 0 then .error .InvalidSize
      else if pos < 0 then .error .PlacementConflict
      else
        match asset.kind with
        | .color =>
          if insertConflict m tid pos asset.duration then .error .PlacementConflict
          else
            .ok ({ m with
                   clips := m.clips ++
                     [{ id := m.nextId, track := tid, pos := pos,
                        len := asset.duration, lane := 0, kind := TKind.video,
                        partner := none }]
                   nextId := m.nextId + 1 }, m.nextId)
        | .av =>
          match mirrorAudioTrack m tid with
          | none => .error .InvalidTrack
          | some mtid =>
            if insertConflict m tid pos asset.duration ||
               insertConflict m mtid pos asset.duration then
              .error .PlacementConflict
            else
              .ok ({ m with
                     clips := m.clips ++
                       [{ id := m.nextId, track := tid, pos := pos,
                          len := asset.duration, lane := 0, kind := TKind.video,
                          partner := some (m.nextId + 1) },
                        { id := m.nextId + 1, track := mtid, pos := pos,
                          len := asset.duration, lane := 0, kind := TKind.audio,
                          partner := some m.nextId }]
                     nextId := m.nextId + 2 }, m.nextId)

/-! ### Resize -/

/-- The clip ids an operation on `cid` expands to through the
audio/video partner link. -/
def partnerSet (m : Model) (cid : Nat) : List Nat :=
  match findClip m cid with
  | some c =>
    match c.partner with
    | some p => [cid, p]
    | none => [cid]
  | none => [cid]

/-- Does the interval [pos, pos+len) of a resized/moved clip `c` (now on
track tid in lane `lane`) conflict with a clip outside the touched set
that is not a mix partner of `c`? -/
def laneConflict (m : Model) (touched : List Nat) (selfId tid : Nat)
    (lane : Nat) (pos len : Int) : Bool :=
  m.clips.any (fun e => !(touched.contains e.id) && e.track == tid &&
                         e.lane == lane && !(mixLinked m selfId e.id) &&
                         overlaps pos len e.pos e.len)

/-- The validation of `requestItemResize`: some resized clip would
start before frame 0 or overlap a foreign clip of its lane. -/
def resizeBad (m : Model) (targets : List Nat) (size : Int) (right : Bool) :
    Bool :=
  m.clips.any (fun d =>
    targets.contains d.id &&
    (let newPos := if right then d.pos else d.pos + d.len - size
     decide (newPos < 0) ||
     laneConflict m targets d.id d.track d.lane newPos size))

/-- The clip rewrite of `requestItemResize`. -/
def resizeApply (m : Model) (targets : List Nat) (size : Int)
    (right : Bool) : Model :=
  { m with clips := m.clips.map (fun d =>
      if targets.contains d.id then
        { d with pos := if right then d.pos else d.pos + d.len - size,
                 len := size }
      else d) }

/-- Modelled from the spec (§4.4 `requestItemResize`): change a clip's
length (and its audio/video partner's, in the same step), keeping the
left edge fixed when `right` is true and the right edge fixed
otherwise; then rerun the mix cascade: a mix whose clips still overlap
is recomputed, one whose overlap is gone is destroyed and its later
clip returned to lane 0.  Returns the applied size. -/
def requestItemResize (m : Model) (cid : Nat) (size : Int) (right : Bool) :
    Except Err (Model × Int) :=
  match findClip m cid with
  | none => .error .UnknownEntity
  | some _ =>
    if size ≤ 0 then .error .InvalidSize
    else
      if resizeBad m (partnerSet m cid) size right then .error .InvalidSize
      else .ok (refreshMixes (resizeApply m (partnerSet m cid) size right), size)

/-! ### Move -/

/-- Remove duplicate ids, keeping first occurrences. -/
def dedupIds : List Nat → List Nat
  | [] => []
  | a :: r => a :: ((dedupIds r).filter (fun b => b != a))

/-- Modelled from the spec: the set of clips a move request expands to:
all members of the clip's group (if any), closed under audio/video
partner links. -/
def movedSet (m : Model) (cid : Nat) : List Nat :=
  let base :=
    match m.groups.find? (fun g => g.contains cid) with
    | some g => g
    | none => [cid]
  dedupIds (base ++ base.filterMap (fun i => (findClip m i).bind Clip.partner))

/-- Computed destination of one moved clip: the clip, its destination
track id and its destination position. -/
def computeDests (m : Model) (dtrack dpos : Int) :
    List Nat → Except Err (List (Clip × Nat × Int))
  | [] => .ok []
  | i :: rest =>
    match findClip m i with
    | none => .error .UnknownEntity
    | some ci =>
      match trackIdx m ci.track with
      | none => .error .UnknownEntity
      | some ii =>
        let j : Int := (ii : Int) + dtrack
        if j < 0 then .error .InvalidTrack
        else
          match m.tracks[j.toNat]? with
          | none => .error .InvalidTrack
          | some tk =>
            if tk.kind != ci.kind then .error .InvalidTrack
            else if ci.pos + dpos < 0 then .error .PlacementConflict
            else
              match computeDests m dtrack dpos rest with
              | .error e => .error e
              | .ok ds => .ok ((ci, tk.id, ci.pos + dpos) :: ds)

/-- Apply a list of computed destinations to the model's clips. -/
def applyDests (m : Model) (dests : List (Clip × Nat × Int)) : Model :=
  { m with clips := m.clips.map (fun c =>
      match dests.find? (fun d => d.1.id == c.id) with
      | some d => { c with track := d.2.1, pos := d.2.2 }
      | none => c) }

/-- Modelled from the spec (§4.4 `requestClipMove`): relocate a clip,
possibly across tracks.  A grouped clip expands to an equal-offset move
of every group member (and audio/video partners); every member is
validated before anything moves, so an invalid member fails the whole
request.  Afterwards the mix cascade runs: a mix whose two clips still
overlap on a common track is recomputed (relocating it when the pair
moved together), otherwise it is destroyed and the later clip returned
to lane 0. -/
def requestClipMove (m : Model) (cid tid : Nat) (pos : Int) :
    Except Err Model :=
  match findClip m cid with
  | none => .error .UnknownEntity
  | some c =>
    match trackIdx m c.track with
    | none => .error .UnknownEntity
    | some src =>
      match trackIdx m tid with
      | none => .error .InvalidTrack
      | some dst =>
        let dtrack : Int := (dst : Int) - (src : Int)
        let dpos : Int := pos - c.pos
        let s := movedSet m cid
        match computeDests m dtrack dpos s with
        | .error e => .error e
        | .ok dests =>
          if dests.any (fun d =>
               laneConflict m s d.1.id d.2.1 d.1.lane d.2.2 d.1.len) then
            .error .PlacementConflict
          else
            .ok (refreshMixes (applyDests m dests))

/-! ### Groups and deletion -/

/-- Modelled from the spec (§4.4 `requestClipsGroup`). -/
def requestClipsGroup (m : Model) (cids : List Nat) :
    Except Err (Model × Nat) :=
  if cids.length < 2 then .error .InsufficientMembers
  else if cids.any (fun i => (findClip m i).isNone) then .error .UnknownEntity
  else if cids.any (fun i => m.groups.any (fun g => g.contains i)) then
    .error .AlreadyGrouped
  else .ok ({ m with groups := m.groups ++ [cids] }, m.groups.length)

/-- Modelled from the spec (§4.4 `requestClipDeletion`): remove the clip
(and its audio/video partner), drop it from groups, then run the mix
cascade so any mix it participated in is destroyed and the former
partner reverts to lane 0. -/
def requestClipDeletion (m : Model) (cid : Nat) : Except Err Model :=
  match findClip m cid with
  | none => .error .UnknownEntity
  | some _ =>
    let dels := partnerSet m cid
    .ok (refreshMixes
      { m with
        clips := m.clips.filter (fun d => !(dels.contains d.id))
        groups := (m.groups.map (fun g =>
          g.filter (fun i => !(dels.contains i)))).filter
            (fun g => 2 ≤ g.length) })

/-! ### Operation dispatch, undo stack, reachability -/

/-- The mutation surface of the Timeline (§4.4). -/
inductive Op where
  | insert (aid tid : Nat) (pos : Int)
  | resize (cid : Nat) (size : Int) (right : Bool)
  | move (cid tid : Nat) (pos : Int)
  | mix (cid : Nat)
  | group (cids : List Nat)
  | delete (cid : Nat)
deriving DecidableEq, Repr

/-- Run one public operation on a model. -/
def applyOp (m : Model) : Op → Except Err Model
  | .insert a t p => (requestClipInsertion m a t p).map Prod.fst
  | .resize c s r => (requestItemResize m c s r).map Prod.fst
  | .move c t p => requestClipMove m c t p
  | .mix c => mixClip m c
  | .group g => (requestClipsGroup m g).map Prod.fst
  | .delete c => requestClipDeletion m c

/-- Run one operation, keeping the old model on failure (the state a
caller observes after a failed request). -/
def applyOpD (m : Model) (op : Op) : Model :=
  match applyOp m op with
  | .ok m' => m'
  | .error _ => m

/-- Modelled from the spec: the timeline together with its shared undo
stack: each successfully applied operation is recorded as one atomic
entry holding the model before and after the whole compound change. -/
structure TL where
  model : Model
  undoStack : List (Model × Model)
  redoStack : List (Model × Model)
deriving DecidableEq, Repr

/-- Record a successful operation as one undo entry (a new mutation
discards the redo tail). -/
def commit (t : TL) (m' : Model) : TL :=
  ⟨m', (t.model, m') :: t.undoStack, []⟩

/-- Run one operation at the timeline level. -/
def stepE (t : TL) (op : Op) : Except Err TL :=
  match applyOp t.model op with
  | .ok m' => .ok (commit t m')
  | .error e => .error e

/-- Total version of `stepE`: a failed request leaves the timeline as
it was. -/
def step (t : TL) (op : Op) : TL :=
  match stepE t op with
  | .ok t' => t'
  | .error _ => t

/-- Modelled from the spec: `undo()` reverses the most recent
still-applied step. -/
def undo (t : TL) : TL :=
  match t.undoStack with
  | [] => t
  | e :: rest => ⟨e.1, rest, e :: t.redoStack⟩

/-- Modelled from the spec: `redo()` re-applies the most recently
undone step. -/
def redo (t : TL) : TL :=
  match t.redoStack with
  | [] => t
  | e :: rest => ⟨e.2, e :: t.undoStack, rest⟩

/-- Timelines reachable from an empty-content timeline through the
public mutation surface and undo/redo. -/
inductive Reachable : TL → Prop where
  | init (m : Model) : m.clips = [] → m.mixes = [] → Reachable ⟨m, [], []⟩
  | step {t t' : TL} {op : Op} : Reachable t → stepE t op = .ok t' → Reachable t'
  | undo {t : TL} : Reachable t → Reachable (undo t)
  | redo {t : TL} : Reachable t → Reachable (redo t)

/-! ### Observable state -/

/-- The whole query surface the tests assert on: clip count, every
clip's position, playtime and lane, and every track's mix count. -/
def observEq (m1 m2 : Model) : Prop :=
  getClipsCount m1 = getClipsCount m2 ∧
  (∀ cid, getClipPosition m1 cid = getClipPosition m2 cid) ∧
  (∀ cid, getClipPlaytime m1 cid = getClipPlaytime m2 cid) ∧
  (∀ cid, getClipLane m1 cid = getClipLane m2 cid) ∧
  (∀ tid, mixCount m1 tid = mixCount m2 tid)

/-- The lane discipline of the spec: a clip occupies lane 1 exactly
when it is the later partner of a currently existing mix. -/
def LaneInv (m : Model) : Prop :=
  ∀ c ∈ m.clips, (c.lane = 1 ↔ ∃ x ∈ m.mixes, x.later = c.id)

/-- Structural well-formedness of a model: distinct clip ids, at most
one mix per later clip, id-freshness of the counter, positive lengths,
and the lane discipline. -/
def Inv (m : Model) : Prop :=
  (m.clips.map Clip.id).Nodup ∧
  (m.mixes.map Mix.later).Nodup ∧
  (∀ c ∈ m.clips, c.id < m.nextId) ∧
  (∀ x ∈ m.mixes, x.later < m.nextId) ∧
  (∀ c ∈ m.clips, 0 < c.len) ∧
  LaneInv m

/-- Well-formedness of a timeline: the live model and every model
snapshot held by the undo/redo history are well-formed. -/
def InvT (t : TL) : Prop :=
  Inv t.model ∧
  (∀ e ∈ t.undoStack, Inv e.1 ∧ Inv e.2) ∧
  (∀ e ∈ t.redoStack, Inv e.1 ∧ Inv e.2)

/-! ### The concrete scenario of `tests/mixtest.cpp` ("Simple Mix")

Two audio tracks (ids 1 and 3) and two video tracks (ids 2 and 4); an
audio-video asset (id 100) and a color asset (id 101); two AV clips
10/11 and 12/13 trimmed to length 10 at positions 100 and 110 of track
2 (audio parts on the mirror track 3), and two color clips 14 and 15 of
length 20 at positions 500 and 520 of track 2. -/

def t0Model : Model :=
  { tracks := [⟨1, .audio⟩, ⟨3, .audio⟩, ⟨2, .video⟩, ⟨4, .video⟩]
    clips := []
    mixes := []
    groups := []
    bin := [⟨100, .av, 50⟩, ⟨101, .color, 50⟩]
    nextId := 10 }

def t0 : TL := ⟨t0Model, [], []⟩

def setupOps : List Op :=
  [.insert 100 2 100, .resize 10 10 true, .insert 100 2 110, .resize 12 10 false,
   .move 12 2 110, .insert 101 2 500, .resize 14 20 true, .insert 101 2 520,
   .resize 15 20 true]

/-- The model of state `state0` of the test: all clips placed, no mix.
`setup_reaches_state0` below proves this is exactly the model produced
by running `setupOps` through the public API. -/
def state0M : Model :=
  { tracks := [⟨1, .audio⟩, ⟨3, .audio⟩, ⟨2, .video⟩, ⟨4, .video⟩]
    clips := [⟨10, 2, 100, 10, 0, .video, some 11⟩,
              ⟨11, 3, 100, 10, 0, .audio, some 10⟩,
              ⟨12, 2, 110, 10, 0, .video, some 13⟩,
              ⟨13, 3, 110, 10, 0, .audio, some 12⟩,
              ⟨14, 2, 500, 20, 0, .video, none⟩,
              ⟨15, 2, 520, 20, 0, .video, none⟩]
    mixes := []
    groups := []
    bin := [⟨100, .av, 50⟩, ⟨101, .color, 50⟩]
    nextId := 16 }

/-- The state `state0` of the test as a fresh timeline. -/
def tState0 : TL := ⟨state0M, [], []⟩

/-- The state `state2` of the test: a mix created between the two color
clips (clip 15 is the later partner). -/
def tMixColor : TL := step tState0 (.mix 15)

/-- The state `state1` of the test: a mix created between the two AV
clips (clip 12 is the later partner), mirrored on the audio track. -/
def tMixAV : TL := step tState0 (.mix 12)

/-- `state2` with the two mixed color clips grouped. -/
def tGrouped : TL := step tMixColor (.group [14, 15])

/-- The grouped pair moved to the other video track (id 4). -/
def tGMoved : TL := step tGrouped (.move 15 4 600)

/-- Result of shrinking the earlier color clip to length 16 inside the
mix zone. -/
def resize16 : Model := applyOpD tMixColor.model (.resize 14 16 true)

/-- Result of shrinking the earlier color clip to length 4, outside the
mix zone. -/
def resize4 : Model := applyOpD tMixColor.model (.resize 14 4 true)

/-- The mixed AV pair moved within its track, still inside the mix
zone. -/
def tAV101 : TL := step tMixAV (.move 12 2 101)

/-- The mixed AV pair moved within its track, outside the mix zone. -/
def tAV200 : TL := step tMixAV (.move 12 2 200)

/-- A small model holding one stale mix: the earlier color clip has
been shrunk to length 4, so the pair no longer overlaps. -/
def staleM : Model :=
  { tracks := [⟨2, .video⟩]
    clips := [⟨14, 2, 500, 4, 0, .video, none⟩, ⟨15, 2, 508, 32, 1, .video, none⟩]
    mixes := [⟨16, 2, 14, 15, 12, 13⟩]
    groups := []
    bin := []
    nextId := 17 }

/-- The mixed later color clip moved within its track, far outside the
mix zone. -/
def tM600 : TL := step tMixColor (.move 15 2 600)

/-- A minimal reachable scenario: one video track, two adjacent color
clips inserted through the API, then mixed. -/
def w0 : TL := ⟨⟨[⟨2, .video⟩], [], [], [], [⟨101, .color, 20⟩], 0⟩, [], []⟩

def w1 : TL := step w0 (.insert 101 2 500)

def w2 : TL := step w1 (.insert 101 2 520)

def w3 : TL := step w2 (.mix 1)

/-! ## Helper lemmas -/

theorem observEq_refl (m : Model) : observEq m m :=
  ⟨rfl, fun _ => rfl, fun _ => rfl, fun _ => rfl, fun _ => rfl⟩

/-- Fidelity of the scenario states: running the setup operations of
the test through the public API produces exactly `state0M`. -/
theorem setup_reaches_state0 : (setupOps.foldl step t0).model = state0M := by
  decide

/-! ## C1: undo/redo round trip -/

/-- C1: for every mutating operation `op` that succeeds (in particular
`mixClip`), `undo(); redo()` on the shared undo stack reproduces a
state observably identical (clip count, positions, playtimes, lanes,
per-track mix counts) to the state right after `op`. -/
theorem undo_redo_roundtrip (t t' : TL) (op : Op) (h : stepE t op = .ok t') :
    observEq (redo (undo t')).model t'.model := by
  unfold stepE at h
  cases hap : applyOp t.model op with
  | ok m' =>
    rw [hap] at h
    cases h
    exact observEq_refl _
  | error e =>
    rw [hap] at h
    cases h

/-- Witness for C1: the round trip applied to `mixClip` on the two
adjacent color clips of the test scenario. -/
theorem undo_redo_roundtrip_witness :
    stepE tState0 (.mix 15) = .ok tMixColor ∧
    observEq (redo (undo tMixColor)).model tMixColor.model :=
  ⟨rfl, undo_redo_roundtrip tState0 tMixColor (.mix 15) rfl⟩

/-! ## C3: scenario B, mix creation -/

/-- C3: with two color clips of length 20 at positions 500 and 520 of
track 2, `mixClip` on the later clip succeeds and creates exactly one
mix on that track: the track's mix count is 1, the later clip's lane is
1, both playtimes exceed 20, the earlier clip still starts at 500 and
the later clip now starts before 520. -/
theorem scenarioB_mixClip_creates_mix :
    getClipPosition tState0.model 14 = some 500 ∧
    getClipPlaytime tState0.model 14 = some 20 ∧
    getClipPosition tState0.model 15 = some 520 ∧
    getClipPlaytime tState0.model 15 = some 20 ∧
    mixClip tState0.model 15 = .ok tMixColor.model ∧
    getClipsCount tMixColor.model = 6 ∧
    tMixColor.model.mixes.length = 1 ∧
    mixCount tMixColor.model 2 = 1 ∧
    getClipLane tMixColor.model 15 = some 1 ∧
    getClipPosition tMixColor.model 14 = some 500 ∧
    (∃ p, getClipPlaytime tMixColor.model 14 = some p ∧ (20 : Int) < p) ∧
    (∃ p, getClipPlaytime tMixColor.model 15 = some p ∧ (20 : Int) < p) ∧
    (∃ q, getClipPosition tMixColor.model 15 = some q ∧ q < (520 : Int)) :=
  ⟨rfl, rfl, rfl, rfl, rfl, rfl, rfl, rfl, rfl, rfl,
   ⟨33, rfl, by decide⟩, ⟨32, rfl, by decide⟩, ⟨508, rfl, by decide⟩⟩

/-! ## C4: scenario B, resize keeping and destroying the mix -/

/-- C4: in scenario B's mixed state, resizing the earlier clip to
length 16 returns 16 and keeps the mix (mix count 1, lanes 0/1), while
resizing it to length 4 returns 4, destroys the mix and returns both
clips to lane 0; each is one atomic step (a single undo entry restores
the mixed state). -/
theorem scenarioB_resize_mix :
    requestItemResize tMixColor.model 14 16 true = .ok (resize16, 16) ∧
    getClipPlaytime resize16 14 = some 16 ∧
    mixCount resize16 2 = 1 ∧
    getClipLane resize16 14 = some 0 ∧
    getClipLane resize16 15 = some 1 ∧
    requestItemResize tMixColor.model 14 4 true = .ok (resize4, 4) ∧
    getClipPlaytime resize4 14 = some 4 ∧
    mixCount resize4 2 = 0 ∧
    getClipLane resize4 14 = some 0 ∧
    getClipLane resize4 15 = some 0 ∧
    (undo (step tMixColor (.resize 14 16 true))).model = tMixColor.model ∧
    (undo (step tMixColor (.resize 14 4 true))).model = tMixColor.model := by
  refine ⟨rfl, rfl, rfl, rfl, rfl, rfl, rfl, rfl, rfl, rfl, by decide, by decide⟩

/-! ## C5: group move relocates the mix -/

/-- C5: when the two clips linked by the mix are grouped and one member
is moved to a different track, the mix is relocated intact to the
destination track (destination mix count 1, source mix count 0), and a
single undo restores the mix to the source track. -/
theorem group_move_relocates_mix :
    stepE tGrouped (.move 15 4 600) = .ok tGMoved ∧
    mixCount tGMoved.model 4 = 1 ∧
    mixCount tGMoved.model 2 = 0 ∧
    (undo tGMoved).model = tGrouped.model ∧
    mixCount (undo tGMoved).model 2 = 1 ∧
    mixCount (undo tGMoved).model 4 = 0 :=
  ⟨rfl, rfl, rfl, by decide, rfl, rfl⟩

/-! ## C7: failed requests are atomic -/

/-- C7: a failing Timeline request returns a typed failure and leaves
the whole model unchanged: every queried field (clip count, positions,
playtimes, lanes, per-track mix counts) is as before; in particular a
group move with an invalid member moves nothing. -/
theorem failed_request_leaves_state (t : TL) (op : Op) (e : Err)
    (h : stepE t op = .error e) :
    step t op = t ∧ applyOpD t.model op = t.model ∧
    observEq (applyOpD t.model op) t.model := by
  have hap : applyOp t.model op = .error e := by
    unfold stepE at h
    cases hh : applyOp t.model op with
    | ok m' => rw [hh] at h; cases h
    | error e' => rw [hh] at h; cases h; rfl
  refine ⟨?_, ?_, ?_⟩
  · simp [step, stepE, hap]
  · simp [applyOpD, hap]
  · simp only [applyOpD, hap]
    exact observEq_refl _

/-- Witness for C7: moving one member of the mixed, grouped pair to an
audio track is invalid for the group, fails with a typed error, and
leaves the timeline unchanged. -/
theorem failed_request_leaves_state_witness :
    stepE tGrouped (.move 15 3 800) = .error .InvalidTrack ∧
    step tGrouped (.move 15 3 800) = tGrouped :=
  ⟨rfl, (failed_request_leaves_state tGrouped (.move 15 3 800) .InvalidTrack rfl).1⟩

/-! ## C8: mixClip on an already mixed pair -/

/-- C8: calling `mixClip` on a clip whose eligible pair is already
linked by a mix fails with `MixAlreadyExists` and leaves the state
unchanged. -/
theorem mixClip_already_mixed (m : Model) (cid : Nat) (c a b : Clip)
    (hc : findClip m cid = some c) (hp : findMixPair m c = some (a, b))
    (hl : mixLinked m a.id b.id = true) :
    mixClip m cid = .error .MixAlreadyExists ∧ applyOpD m (.mix cid) = m := by
  have herr : mixClip m cid = .error .MixAlreadyExists := by
    simp [mixClip, hc, hp, hl]
  exact ⟨herr, by simp [applyOpD, applyOp, herr]⟩

/-- Witness for C8: `mixClip` repeated on the mixed color pair. -/
theorem mixClip_already_mixed_witness :
    mixClip tMixColor.model 15 = .error .MixAlreadyExists ∧
    applyOpD tMixColor.model (.mix 15) = tMixColor.model :=
  mixClip_already_mixed tMixColor.model 15
    ⟨15, 2, 508, 32, 1, .video, none⟩
    ⟨14, 2, 500, 33, 0, .video, none⟩
    ⟨15, 2, 508, 32, 1, .video, none⟩
    (by decide) (by decide) (by decide)

/-! ## C10: AV mix mirrored on the audio track -/

/-- C10: `mixClip` on an audio-video clip creates the mix on the video
track and on the mirrored audio track in the same atomic step (both
mix counts become 1 and a single undo removes both), and the mix
side effects of subsequent moves keep the two counts equal: an in-zone
move keeps both at 1, an out-of-zone move drops both to 0. -/
theorem av_mix_mirrored :
    stepE tState0 (.mix 12) = .ok tMixAV ∧
    mixCount tMixAV.model 2 = 1 ∧
    mixCount tMixAV.model 3 = 1 ∧
    (undo tMixAV).model = tState0.model ∧
    stepE tMixAV (.move 12 2 101) = .ok tAV101 ∧
    mixCount tAV101.model 2 = mixCount tAV101.model 3 ∧
    mixCount tAV101.model 2 = 1 ∧
    stepE tMixAV (.move 12 2 200) = .ok tAV200 ∧
    mixCount tAV200.model 2 = mixCount tAV200.model 3 ∧
    mixCount tAV200.model 2 = 0 :=
  ⟨rfl, rfl, rfl, by decide, rfl, rfl, rfl, rfl, rfl, rfl⟩

/-! ## Structural lemmas about the mix cascade -/

theorem recomputeMix_later (m : Model) (x : Mix) :
    (recomputeMix m x).later = x.later := by
  unfold recomputeMix
  cases findClip m x.earlier <;> cases findClip m x.later <;> rfl

theorem recomputeMix_track (m : Model) (x : Mix) (a b : Clip)
    (ha : findClip m x.earlier = some a) (hb : findClip m x.later = some b) :
    (recomputeMix m x).track = a.track := by
  unfold recomputeMix
  rw [ha, hb]

theorem find?_map_id (l : List Clip) (f : Clip → Clip)
    (hf : ∀ c, (f c).id = c.id) (cid : Nat) :
    (l.map f).find? (fun c => c.id == cid) =
      (l.find? (fun c => c.id == cid)).map f := by
  induction l with
  | nil => rfl
  | cons a l ih =>
    simp only [List.map_cons, List.find?]
    rw [hf a]
    cases h : (a.id == cid) <;> simp [h, ih]

theorem findClip_mem_nodup (l : List Clip) (hn : (l.map Clip.id).Nodup)
    (c : Clip) (hc : c ∈ l) : l.find? (fun d => d.id == c.id) = some c := by
  induction l with
  | nil => cases hc
  | cons a l ih =>
    rw [List.map_cons, List.nodup_cons] at hn
    rcases List.mem_cons.mp hc with h | h
    · subst h
      simp [List.find?]
    · have hne : (a.id == c.id) = false := by
        simp only [beq_eq_false_iff_ne, ne_eq]
        intro he
        exact hn.1 (he ▸ List.mem_map_of_mem Clip.id h)
      simp only [List.find?, hne]
      exact ih hn.2 h

theorem clip_id_inj {l : List Clip} (hn : (l.map Clip.id).Nodup)
    {c d : Clip} (hc : c ∈ l) (hd : d ∈ l) (h : c.id = d.id) : c = d :=
  List.inj_on_of_nodup_map hn hc hd h

theorem mix_later_inj {l : List Mix} (hn : (l.map Mix.later).Nodup)
    {x y : Mix} (hx : x ∈ l) (hy : y ∈ l) (h : x.later = y.later) : x = y :=
  List.inj_on_of_nodup_map hn hx hy h

/-- Looking a clip up after the cascade: same clip, with the lane reset
to 0 exactly when some stale mix had it as later partner. -/
theorem findClip_refresh (m : Model) (cid : Nat) :
    findClip (refreshMixes m) cid =
      (findClip m cid).map (fun c =>
        if m.mixes.any (fun x => !(mixValid m x) && x.later == c.id) then
          { c with lane := 0 } else c) := by
  unfold refreshMixes findClip
  exact find?_map_id _ _ (fun c => by split <;> rfl) cid

/-- The cascade destroys a stale mix: no surviving mix has its later
clip, and that clip's lane is reset to 0. -/
theorem refresh_destroys (m : Model) (x : Mix) (c : Clip)
    (hlater : (m.mixes.map Mix.later).Nodup)
    (hids : (m.clips.map Clip.id).Nodup)
    (hx : x ∈ m.mixes) (hbad : mixValid m x = false)
    (hc : c ∈ m.clips) (hcid : c.id = x.later) :
    hasLaterMix (refreshMixes m) x.later = false ∧
    getClipLane (refreshMixes m) x.later = some 0 := by
  constructor
  · unfold hasLaterMix refreshMixes
    simp only [List.any_eq_false]
    intro y hy
    obtain ⟨z, hz, rfl⟩ := List.mem_map.mp hy
    have hzmem : z ∈ m.mixes := List.mem_of_mem_filter hz
    have hzval : mixValid m z = true := List.of_mem_filter hz
    rw [recomputeMix_later]
    simp only [beq_iff_eq]
    intro he
    have hzx : z = x := mix_later_inj hlater hzmem hx he
    rw [hzx, hbad] at hzval
    cases hzval
  · have hfc : findClip m x.later = some c := by
      rw [← hcid]
      exact findClip_mem_nodup _ hids c hc
    rw [getClipLane, findClip_refresh, hfc]
    have hany : m.mixes.any (fun y => !(mixValid m y) && y.later == c.id) = true := by
      rw [List.any_eq_true]
      exact ⟨x, hx, by simp [hbad, hcid]⟩
    simp only [Option.map_some']
    rw [hany]
    rfl

/-- Counting helper: removing from a filtered list the single bad
element drops the length by exactly one. -/
theorem length_filter_erase_one {α : Type _} (l : List α) (P Q : α → Bool)
    (hl : l.Nodup) (x : α) (hx : x ∈ l) (hP : P x = true) (hQ : Q x = false)
    (ho : ∀ y ∈ l, P y = true → y ≠ x → Q y = true) :
    (l.filter (fun y => Q y && P y)).length + 1 = (l.filter P).length := by
  induction l with
  | nil => cases hx
  | cons a l ih =>
    rw [List.nodup_cons] at hl
    rcases List.mem_cons.mp hx with rfl | hmem
    · have hqp : (Q x && P x) = false := by simp [hQ]
      have hcongr : ∀ y ∈ l, (Q y && P y) = P y := by
        intro y hy
        cases hPy : P y with
        | false => simp [hPy]
        | true =>
          have hQy := ho y (List.mem_cons_of_mem _ hy) hPy
            (fun he => hl.1 (he ▸ hy))
          simp [hQy, hPy]
      rw [List.filter_cons, List.filter_cons, List.filter_congr hcongr]
      simp [hqp, hP, hQ]
    · have hax : a ≠ x := fun he => hl.1 (he ▸ hmem)
      have ho' : ∀ y ∈ l, P y = true → y ≠ x → Q y = true :=
        fun y hy => ho y (List.mem_cons_of_mem _ hy)
      have hih := ih hl.2 hmem ho'
      rw [List.filter_cons, List.filter_cons]
      by_cases hPa : P a = true
      · have hQa : Q a = true := ho a (List.mem_cons_self a l) hPa hax
        simp only [hPa, hQa, Bool.true_and, if_true, List.length_cons]
        omega
      · have hqp : (Q a && P a) = false := by simp [hPa]
        simp [hqp, eq_false_of_ne_true hPa]
        exact hih

theorem mixValid_lookups (m : Model) (y : Mix) (h : mixValid m y = true) :
    ∃ a b, findClip m y.earlier = some a ∧ findClip m y.later = some b ∧
      (a.track == b.track && overlaps a.pos a.len b.pos b.len) = true := by
  unfold mixValid at h
  cases ha : findClip m y.earlier with
  | none => rw [ha] at h; cases h
  | some a =>
    cases hb : findClip m y.later with
    | none => rw [ha, hb] at h; cases h
    | some b =>
      rw [ha, hb] at h
      exact ⟨a, b, rfl, rfl, h⟩

/-! ## C2: destroying a mix resets the lane and decrements the count -/

/-- C2: whenever an existing mix has become stale (its clips no longer
overlap on a common track, as after an out-of-zone move or resize, a
cross-track move without the partner, or a deletion), the cascade that
every mutating operation runs destroys it: the later clip's lane is
reset to 0 and the owning track's mix count decreases by exactly 1
(the track's other mixes being unaffected ones that survive). -/
theorem mix_destroy_resets_lane_and_count (m : Model) (x : Mix) (c : Clip)
    (hInv : Inv m)
    (hx : x ∈ m.mixes) (hbad : mixValid m x = false)
    (hc : c ∈ m.clips) (hcid : c.id = x.later)
    (htrk : ∀ y ∈ m.mixes, mixValid m y = true →
      (findClip m y.earlier).map Clip.track = some y.track)
    (huniq : ∀ y ∈ m.mixes, y.track = x.track → y ≠ x → mixValid m y = true) :
    getClipLane (refreshMixes m) x.later = some 0 ∧
    hasLaterMix (refreshMixes m) x.later = false ∧
    mixCount (refreshMixes m) x.track + 1 = mixCount m x.track := by
  obtain ⟨hids, hlater, _, _, _, _⟩ := hInv
  have hdes := refresh_destroys m x c hlater hids hx hbad hc hcid
  refine ⟨hdes.2, hdes.1, ?_⟩
  simp only [mixCount, refreshMixes]
  rw [List.filter_map, List.length_map, List.filter_filter]
  simp only [Function.comp]
  have hcongr : ∀ y ∈ m.mixes,
      (((recomputeMix m y).track == x.track) && mixValid m y) =
        (mixValid m y && (y.track == x.track)) := by
    intro y hy
    cases hV : mixValid m y with
    | false => simp
    | true =>
      obtain ⟨a, b, ha, hb, _⟩ := mixValid_lookups m y hV
      have htr := htrk y hy hV
      rw [ha] at htr
      simp only [Option.map_some', Option.some.injEq] at htr
      rw [recomputeMix_track m y a b ha hb, htr]
      exact Bool.and_comm _ _
  rw [List.filter_congr hcongr]
  exact length_filter_erase_one m.mixes (fun y => y.track == x.track)
    (fun y => mixValid m y) (List.Nodup.of_map _ hlater) x hx (by simp) hbad
    (fun y hy hP hne => huniq y hy (by simpa using hP) hne)

/-- Witness for C2: the stale mix of `staleM` is destroyed by the
cascade: clip 15 returns to lane 0 and the mix count of track 2 drops
from 1 to 0. -/
theorem mix_destroy_resets_lane_and_count_witness :
    getClipLane (refreshMixes staleM) 15 = some 0 ∧
    hasLaterMix (refreshMixes staleM) 15 = false ∧
    mixCount (refreshMixes staleM) 2 + 1 = mixCount staleM 2 :=
  mix_destroy_resets_lane_and_count staleM ⟨16, 2, 14, 15, 12, 13⟩
    ⟨15, 2, 508, 32, 1, .video, none⟩
    (by unfold Inv LaneInv; decide) (by decide) (by decide) (by decide)
    (by decide) (by decide) (by decide)

/-! ## Preservation of well-formedness -/

/-- The cascade preserves well-formedness. -/
theorem refresh_inv (m : Model) (h : Inv m) : Inv (refreshMixes m) := by
  obtain ⟨hids, hlater, hnid, hmid, hlen, hlane⟩ := h
  set f : Clip → Clip := fun c =>
    if m.mixes.any (fun x => !(mixValid m x) && x.later == c.id) then
      { c with lane := 0 } else c with hfdef
  have hfid : ∀ c, (f c).id = c.id := fun c => by
    simp only [hfdef]
    split <;> rfl
  have hflen : ∀ c, (f c).len = c.len := fun c => by
    simp only [hfdef]
    split <;> rfl
  have hclips : (refreshMixes m).clips = m.clips.map f := rfl
  have hmixes : (refreshMixes m).mixes =
      (m.mixes.filter (fun x => mixValid m x)).map (fun x => recomputeMix m x) := rfl
  have hnext : (refreshMixes m).nextId = m.nextId := rfl
  have hlatmap : ((m.mixes.filter (fun x => mixValid m x)).map
      (fun x => recomputeMix m x)).map Mix.later =
      (m.mixes.filter (fun x => mixValid m x)).map Mix.later := by
    rw [List.map_map]
    exact List.map_congr_left (fun x _ => recomputeMix_later m x)
  unfold Inv LaneInv
  refine ⟨?_, ?_, ?_, ?_, ?_, ?_⟩
  · rw [hclips, List.map_map]
    have he : m.clips.map (Clip.id ∘ f) = m.clips.map Clip.id :=
      List.map_congr_left (fun c _ => hfid c)
    rw [he]
    exact hids
  · rw [hmixes, hlatmap]
    exact List.Nodup.sublist (List.Sublist.map _ (List.filter_sublist _)) hlater
  · rw [hclips, hnext]
    intro c' hc'
    obtain ⟨c, hc, rfl⟩ := List.mem_map.mp hc'
    rw [hfid]
    exact hnid c hc
  · rw [hmixes, hnext]
    intro y hy
    obtain ⟨z, hz, rfl⟩ := List.mem_map.mp hy
    rw [recomputeMix_later]
    exact hmid z (List.mem_of_mem_filter hz)
  · rw [hclips]
    intro c' hc'
    obtain ⟨c, hc, rfl⟩ := List.mem_map.mp hc'
    rw [hflen]
    exact hlen c hc
  · intro c' hc'
    rw [hclips] at hc'
    obtain ⟨c, hc, rfl⟩ := List.mem_map.mp hc'
    rw [hmixes, hfid]
    cases hcond : m.mixes.any (fun x => !(mixValid m x) && x.later == c.id) with
    | true =>
      have hfc : f c = { c with lane := 0 } := by
        rw [hfdef]
        exact if_pos hcond
      rw [hfc]
      constructor
      · intro h0
        simp at h0
      · rintro ⟨y, hy, hyl⟩
        obtain ⟨z, hz, rfl⟩ := List.mem_map.mp hy
        have hzmem := List.mem_of_mem_filter hz
        have hzval : mixValid m z = true := List.of_mem_filter hz
        rw [recomputeMix_later] at hyl
        obtain ⟨w, hw, hwp⟩ := List.any_eq_true.mp hcond
        have hwp' : mixValid m w = false ∧ w.later = c.id := by simpa using hwp
        have hzw : z = w := mix_later_inj hlater hzmem hw (by rw [hyl, hwp'.2])
        rw [hzw, hwp'.1] at hzval
        cases hzval
    | false =>
      have hfc : f c = c := by
        rw [hfdef]
        exact if_neg (by simp [hcond])
      rw [hfc]
      have hiff := hlane c hc
      constructor
      · intro h1
        obtain ⟨y, hy, hyl⟩ := hiff.mp h1
        have hyval : mixValid m y = true := by
          cases hv : mixValid m y with
          | true => rfl
          | false =>
            exfalso
            have hall := List.any_eq_false.mp hcond y hy
            apply hall
            rw [hv, hyl]
            simp
        refine ⟨recomputeMix m y,
          List.mem_map_of_mem _ (List.mem_filter.mpr ⟨hy, hyval⟩), ?_⟩
        rw [recomputeMix_later]
        exact hyl
      · rintro ⟨y, hy, hyl⟩
        obtain ⟨z, hz, rfl⟩ := List.mem_map.mp hy
        rw [recomputeMix_later] at hyl
        exact hiff.mpr ⟨z, List.mem_of_mem_filter hz, hyl⟩

/-- Geometry-only clip rewrites (moves, resizes) preserve
well-formedness when lengths stay positive. -/
theorem map_clips_inv (m : Model) (f : Clip → Clip)
    (hfid : ∀ c, (f c).id = c.id) (hflane : ∀ c, (f c).lane = c.lane)
    (hflen : ∀ c ∈ m.clips, 0 < (f c).len) (h : Inv m) :
    Inv { m with clips := m.clips.map f } := by
  obtain ⟨hids, hlater, hnid, hmid, hlen, hlane⟩ := h
  unfold Inv LaneInv
  dsimp only
  refine ⟨?_, hlater, ?_, hmid, ?_, ?_⟩
  · rw [List.map_map]
    have he : m.clips.map (Clip.id ∘ f) = m.clips.map Clip.id :=
      List.map_congr_left (fun c _ => hfid c)
    rw [he]
    exact hids
  · intro c' hc'
    obtain ⟨c, hc, rfl⟩ := List.mem_map.mp hc'
    rw [hfid]
    exact hnid c hc
  · intro c' hc'
    obtain ⟨c, hc, rfl⟩ := List.mem_map.mp hc'
    exact hflen c hc
  · intro c' hc'
    obtain ⟨c, hc, rfl⟩ := List.mem_map.mp hc'
    rw [hfid, hflane]
    exact hlane c hc

/-- Changing only the group registry preserves well-formedness. -/
theorem groups_inv (m : Model) (gs : List (List Nat)) (h : Inv m) :
    Inv { m with groups := gs } := h

/-- Removing clips (and rewriting groups) preserves well-formedness. -/
theorem filter_clips_groups_inv (m : Model) (p : Clip → Bool)
    (gs : List (List Nat)) (h : Inv m) :
    Inv { m with clips := m.clips.filter p, groups := gs } := by
  obtain ⟨hids, hlater, hnid, hmid, hlen, hlane⟩ := h
  unfold Inv LaneInv
  dsimp only
  refine ⟨?_, hlater, ?_, hmid, ?_, ?_⟩
  · exact List.Nodup.sublist (List.Sublist.map _ (List.filter_sublist _)) hids
  · exact fun c hc => hnid c (List.mem_of_mem_filter hc)
  · exact fun c hc => hlen c (List.mem_of_mem_filter hc)
  · exact fun c hc => hlane c (List.mem_of_mem_filter hc)

/-- Appending freshly numbered lane-0 clips preserves well-formedness. -/
theorem append_fresh_inv (m : Model) (cs : List Clip) (k : Nat)
    (hfresh : ∀ c ∈ cs, m.nextId ≤ c.id ∧ c.id < m.nextId + k)
    (hnodup : (cs.map Clip.id).Nodup)
    (hlane0 : ∀ c ∈ cs, c.lane ≠ 1)
    (hlenpos : ∀ c ∈ cs, 0 < c.len)
    (h : Inv m) :
    Inv { m with clips := m.clips ++ cs, nextId := m.nextId + k } := by
  obtain ⟨hids, hlater, hnid, hmid, hlen, hlane⟩ := h
  unfold Inv LaneInv
  dsimp only
  refine ⟨?_, hlater, ?_, ?_, ?_, ?_⟩
  · rw [List.map_append, List.nodup_append]
    refine ⟨hids, hnodup, ?_⟩
    intro i hi hi'
    obtain ⟨c, hc, rfl⟩ := List.mem_map.mp hi
    obtain ⟨d, hd, hde⟩ := List.mem_map.mp hi'
    have h1 := hnid c hc
    have h2 := (hfresh d hd).1
    omega
  · intro c hc
    rcases List.mem_append.mp hc with hm | hm
    · exact lt_of_lt_of_le (hnid c hm) (Nat.le_add_right _ _)
    · exact (hfresh c hm).2
  · intro x hx
    exact lt_of_lt_of_le (hmid x hx) (Nat.le_add_right _ _)
  · intro c hc
    rcases List.mem_append.mp hc with hm | hm
    · exact hlen c hm
    · exact hlenpos c hm
  · intro c hc
    rcases List.mem_append.mp hc with hm | hm
    · exact hlane c hm
    · constructor
      · intro h1
        exact absurd h1 (hlane0 c hm)
      · rintro ⟨x, hx, hxl⟩
        exfalso
        have h1 := hmid x hx
        have h2 := (hfresh c hm).1
        omega

/-- `requestClipInsertion` preserves well-formedness. -/
theorem insert_inv (m : Model) (aid tid : Nat) (pos : Int) (m' : Model)
    (cid : Nat) (h : requestClipInsertion m aid tid pos = .ok (m', cid))
    (hInv : Inv m) : Inv m' := by
  unfold requestClipInsertion at h
  cases hA : findAsset m aid with
  | none => rw [hA] at h; cases h
  | some asset =>
    rw [hA] at h
    simp only [] at h
    cases hT : findTrack m tid with
    | none => rw [hT] at h; cases h
    | some tk =>
      rw [hT] at h
      simp only [] at h
      split at h
      · cases h
      · split at h
        next hdur => cases h
        next hdur =>
          split at h
          · cases h
          · split at h
            · -- color
              split at h
              · cases h
              · injection h with h1
                have h2 := congrArg Prod.fst h1
                dsimp at h2
                rw [← h2]
                refine append_fresh_inv m _ 1 ?_ ?_ ?_ ?_ hInv
                · intro c hc
                  rw [List.mem_singleton] at hc
                  subst hc
                  dsimp
                  omega
                · simp
                · intro c hc
                  rw [List.mem_singleton] at hc
                  subst hc
                  dsimp
                  omega
                · intro c hc
                  rw [List.mem_singleton] at hc
                  subst hc
                  dsimp
                  omega
            · -- av
              split at h
              · cases h
              · split at h
                · cases h
                · injection h with h1
                  have h2 := congrArg Prod.fst h1
                  dsimp at h2
                  rw [← h2]
                  refine append_fresh_inv m _ 2 ?_ ?_ ?_ ?_ hInv
                  · intro c hc
                    rcases List.mem_cons.mp hc with rfl | hc
                    · dsimp
                      omega
                    · rw [List.mem_singleton] at hc
                      subst hc
                      dsimp
                      omega
                  · simp
                  · intro c hc
                    rcases List.mem_cons.mp hc with rfl | hc
                    · dsimp
                      omega
                    · rw [List.mem_singleton] at hc
                      subst hc
                      dsimp
                      omega
                  · intro c hc
                    rcases List.mem_cons.mp hc with rfl | hc
                    · dsimp
                      omega
                    · rw [List.mem_singleton] at hc
                      subst hc
                      dsimp
                      omega

/-- Creating one mix on an adjacent pair preserves well-formedness. -/
theorem applyMixPair_inv (m : Model) (aId bId : Nat) (a b : Clip)
    (ha : findClip m aId = some a) (hb : findClip m bId = some b)
    (hne : aId ≠ bId) (hlaterb : hasLaterMix m bId = false)
    (hab : a.pos < b.pos) (h : Inv m) : Inv (applyMixPair m aId bId) := by
  obtain ⟨hids, hlater, hnid, hmid, hlen, hlane⟩ := h
  have hamem : a ∈ m.clips := List.mem_of_find?_eq_some ha
  have hbmem : b ∈ m.clips := List.mem_of_find?_eq_some hb
  have haid : a.id = aId := by simpa using List.find?_some ha
  have hbid : b.id = bId := by simpa using List.find?_some hb
  have hnotin : ∀ x ∈ m.mixes, x.later ≠ bId := by
    intro x hx
    have := List.any_eq_false.mp hlaterb x hx
    simpa using this
  unfold applyMixPair
  rw [ha, hb]
  simp only []
  set f : Clip → Clip := fun c =>
    if c.id == aId then { c with len := b.pos + defaultAfter - c.pos }
    else if c.id == bId then
      { c with pos := b.pos - defaultBefore, len := c.len + defaultBefore, lane := 1 }
    else c with hfdef
  have hfid : ∀ c, (f c).id = c.id := fun c => by
    simp only [hfdef]
    split
    · rfl
    · split <;> rfl
  unfold Inv LaneInv
  dsimp only
  refine ⟨?_, ?_, ?_, ?_, ?_, ?_⟩
  · rw [List.map_map]
    have he : m.clips.map (Clip.id ∘ f) = m.clips.map Clip.id :=
      List.map_congr_left (fun c _ => hfid c)
    rw [he]
    exact hids
  · rw [List.map_append, List.nodup_append]
    refine ⟨hlater, by simp, ?_⟩
    intro i hi hi'
    obtain ⟨x, hx, rfl⟩ := List.mem_map.mp hi
    simp only [List.map_cons, List.map_nil, List.mem_singleton] at hi'
    exact hnotin x hx hi'
  · intro c' hc'
    obtain ⟨c, hc, rfl⟩ := List.mem_map.mp hc'
    rw [hfid]
    exact lt_of_lt_of_le (hnid c hc) (Nat.le_add_right _ _)
  · intro x hx
    rcases List.mem_append.mp hx with hm | hm
    · exact lt_of_lt_of_le (hmid x hm) (Nat.le_add_right _ _)
    · rw [List.mem_singleton] at hm
      subst hm
      dsimp
      rw [← hbid]
      exact lt_of_lt_of_le (hnid b hbmem) (Nat.le_add_right _ _)
  · intro c' hc'
    obtain ⟨c, hc, rfl⟩ := List.mem_map.mp hc'
    simp only [hfdef]
    split
    next hca =>
      have hceq : c = a := clip_id_inj hids hc hamem (by simpa [haid] using hca)
      subst hceq
      dsimp
      have h13 : defaultAfter = 13 := rfl
      omega
    next hca =>
      split
      · dsimp
        have h12 : defaultBefore = 12 := rfl
        have := hlen c hc
        omega
      · exact hlen c hc
  · intro c' hc'
    obtain ⟨c, hc, rfl⟩ := List.mem_map.mp hc'
    rw [hfid]
    by_cases hcb : c.id = bId
    · have hflane1 : (f c).lane = 1 := by
        simp only [hfdef]
        rw [if_neg (by simp [hcb, Ne.symm hne]), if_pos (by simp [hcb])]
      rw [hflane1]
      constructor
      · intro _
        refine ⟨{ id := m.nextId, track := a.track, earlier := aId, later := bId,
                  beforeD := defaultBefore, afterD := defaultAfter },
                List.mem_append_right _ (List.mem_singleton.mpr rfl), ?_⟩
        dsimp
        exact hcb.symm
      · intro _
        rfl
    · have hflane : (f c).lane = c.lane := by
        simp only [hfdef]
        split
        · rfl
        · rw [if_neg (by simp [hcb])]
      rw [hflane]
      have hiff := hlane c hc
      constructor
      · intro h1
        obtain ⟨x, hx, hxl⟩ := hiff.mp h1
        exact ⟨x, List.mem_append_left _ hx, hxl⟩
      · rintro ⟨x, hx, hxl⟩
        rcases List.mem_append.mp hx with hm | hm
        · exact hiff.mpr ⟨x, hm, hxl⟩
        · rw [List.mem_singleton] at hm
          subst hm
          exact absurd hxl.symm hcb

/-- The pair chosen by `findMixPair`: both clips live on the model, are
distinct, and the earlier one starts strictly first. -/
theorem findMixPair_props (m : Model) (c a b : Clip)
    (hc : c ∈ m.clips) (hp : findMixPair m c = some (a, b))
    (hlen : ∀ d ∈ m.clips, 0 < d.len) :
    a ∈ m.clips ∧ b ∈ m.clips ∧ a.id ≠ b.id ∧ a.pos < b.pos := by
  unfold findMixPair at hp
  cases h1 : m.clips.find? (fun d => d.id != c.id && d.track == c.track &&
      d.pos + d.len == c.pos) with
  | some d =>
    rw [h1] at hp
    simp only [Option.some.injEq, Prod.mk.injEq] at hp
    obtain ⟨rfl, rfl⟩ := hp
    have hdmem := List.mem_of_find?_eq_some h1
    have hpred := List.find?_some h1
    simp only [Bool.and_eq_true, bne_iff_ne, beq_iff_eq, ne_eq] at hpred
    refine ⟨hdmem, hc, hpred.1.1, ?_⟩
    have := hlen d hdmem
    omega
  | none =>
    rw [h1] at hp
    cases h2 : m.clips.find? (fun d => d.id != c.id && d.track == c.track &&
        c.pos + c.len == d.pos) with
    | some d =>
      rw [h2] at hp
      simp only [Option.some.injEq, Prod.mk.injEq] at hp
      obtain ⟨rfl, rfl⟩ := hp
      have hdmem := List.mem_of_find?_eq_some h2
      have hpred := List.find?_some h2
      simp only [Bool.and_eq_true, bne_iff_ne, beq_iff_eq, ne_eq] at hpred
      refine ⟨hc, hdmem, fun he => hpred.1.1 he.symm, ?_⟩
      have := hlen c hc
      omega
    | none =>
      rw [h2] at hp
      cases h3 : m.clips.find? (fun d => d.id != c.id && d.track == c.track &&
          overlaps d.pos d.len c.pos c.len) with
      | some d =>
        rw [h3] at hp
        have hdmem := List.mem_of_find?_eq_some h3
        have hpred := List.find?_some h3
        simp only [Bool.and_eq_true, bne_iff_ne, beq_iff_eq, ne_eq] at hpred
        simp only [] at hp
        split at hp
        · simp only [Option.some.injEq, Prod.mk.injEq] at hp
          obtain ⟨rfl, rfl⟩ := hp
          refine ⟨hdmem, hc, hpred.1.1, by assumption⟩
        · split at hp
          · simp only [Option.some.injEq, Prod.mk.injEq] at hp
            obtain ⟨rfl, rfl⟩ := hp
            refine ⟨hc, hdmem, fun he => hpred.1.1 he.symm, by assumption⟩
          · cases hp
      | none =>
        rw [h3] at hp
        cases hp

/-- `mixClip` preserves well-formedness. -/
theorem mixClip_inv (m : Model) (cid : Nat) (m' : Model)
    (h : mixClip m cid = .ok m') (hInv : Inv m) : Inv m' := by
  have hids := hInv.1
  have hlen := hInv.2.2.2.2.1
  unfold mixClip at h
  cases hc : findClip m cid with
  | none => rw [hc] at h; cases h
  | some c =>
    rw [hc] at h
    simp only [] at h
    cases hp : findMixPair m c with
    | none => rw [hp] at h; cases h
    | some ab =>
      obtain ⟨a, b⟩ := ab
      rw [hp] at h
      simp only [] at h
      obtain ⟨hamem, hbmem, habne, habpos⟩ :=
        findMixPair_props m c a b (List.mem_of_find?_eq_some hc) hp hlen
      have hfa : findClip m a.id = some a := findClip_mem_nodup _ hids a hamem
      have hfb : findClip m b.id = some b := findClip_mem_nodup _ hids b hbmem
      split at h
      · cases h
      next hguard =>
        have hnl : hasLaterMix m b.id = false := by
          rcases Bool.or_eq_true _ _ ▸ fun hh => hguard hh with _
          cases hv : hasLaterMix m b.id
          · rfl
          · exact absurd (by rw [Bool.or_eq_true]; exact Or.inl hv) hguard
        split at h
        · cases h
        · have hinv1 : Inv (applyMixPair m a.id b.id) :=
            applyMixPair_inv m a.id b.id a b hfa hfb habne hnl habpos hInv
          split at h
          next ap bp hap hbp =>
            cases hfa2 : findClip (applyMixPair m a.id b.id) ap with
            | none => rw [hfa2] at h; cases h
            | some a2 =>
              rw [hfa2] at h
              cases hfb2 : findClip (applyMixPair m a.id b.id) bp with
              | none => rw [hfb2] at h; cases h
              | some b2 =>
                rw [hfb2] at h
                simp only [] at h
                split at h
                next hcond =>
                  simp only [Bool.and_eq_true, beq_iff_eq, Bool.not_eq_true'] at hcond
                  injection h with h1
                  rw [← h1]
                  have ha2id : a2.id = ap := by simpa using List.find?_some hfa2
                  have hb2id : b2.id = bp := by simpa using List.find?_some hfb2
                  have ha2mem : a2 ∈ (applyMixPair m a.id b.id).clips :=
                    List.mem_of_find?_eq_some hfa2
                  have hb2mem : b2 ∈ (applyMixPair m a.id b.id).clips :=
                    List.mem_of_find?_eq_some hfb2
                  have hlen2 := hinv1.2.2.2.2.1
                  have hne2 : ap ≠ bp := by
                    intro he
                    rw [← he, hfa2] at hfb2
                    have hb2a2 : b2 = a2 := by
                      simpa using hfb2.symm
                    have hadj := hcond.1.1.2
                    have := hlen2 a2 ha2mem
                    rw [hb2a2] at hadj
                    omega
                  have hpos2 : a2.pos < b2.pos := by
                    have hadj := hcond.1.1.2
                    have := hlen2 a2 ha2mem
                    omega
                  exact applyMixPair_inv _ ap bp a2 b2 hfa2 hfb2 hne2
                    (hb2id ▸ hcond.1.2) hpos2 hinv1
                · cases h
          next hnone =>
            injection h with h1
            rw [← h1]
            exact hinv1

/-- `requestItemResize` preserves well-formedness. -/
theorem resize_inv (m : Model) (cid : Nat) (size : Int) (right : Bool)
    (m' : Model) (s : Int)
    (h : requestItemResize m cid size right = .ok (m', s)) (hInv : Inv m) :
    Inv m' := by
  unfold requestItemResize at h
  cases hc : findClip m cid with
  | none => rw [hc] at h; cases h
  | some c =>
    rw [hc] at h
    simp only [] at h
    split at h
    next hsz => cases h
    next hsz =>
      cases hB : resizeBad m (partnerSet m cid) size right with
      | true => rw [hB] at h; simp at h
      | false =>
        rw [hB] at h
        simp only [Bool.false_eq_true, if_false] at h
        injection h with h1
        have h2 := congrArg Prod.fst h1
        dsimp at h2
        rw [← h2]
        apply refresh_inv
        unfold resizeApply
        apply map_clips_inv
        · intro d
          split <;> rfl
        · intro d
          split <;> rfl
        · intro d hd
          split
          · dsimp
            omega
          · exact hInv.2.2.2.2.1 d hd
        · exact hInv

/-- `requestClipMove` preserves well-formedness. -/
theorem move_inv (m : Model) (cid tid : Nat) (pos : Int) (m' : Model)
    (h : requestClipMove m cid tid pos = .ok m') (hInv : Inv m) : Inv m' := by
  unfold requestClipMove at h
  cases hc : findClip m cid with
  | none => rw [hc] at h; cases h
  | some c =>
    rw [hc] at h
    simp only [] at h
    cases hs : trackIdx m c.track with
    | none => rw [hs] at h; cases h
    | some src =>
      rw [hs] at h
      simp only [] at h
      cases hd : trackIdx m tid with
      | none => rw [hd] at h; cases h
      | some dst =>
        rw [hd] at h
        simp only [] at h
        cases hcd : computeDests m ((dst : Int) - (src : Int)) (pos - c.pos)
            (movedSet m cid) with
        | error e => rw [hcd] at h; cases h
        | ok dests =>
          rw [hcd] at h
          simp only [] at h
          split at h
          · cases h
          · injection h with h1
            rw [← h1]
            apply refresh_inv
            unfold applyDests
            apply map_clips_inv
            · intro d
              cases hfind : dests.find? (fun e => e.1.id == d.id) with
              | none => simp [hfind]
              | some e => simp [hfind]
            · intro d
              cases hfind : dests.find? (fun e => e.1.id == d.id) with
              | none => simp [hfind]
              | some e => simp [hfind]
            · intro d hd
              cases hfind : dests.find? (fun e => e.1.id == d.id) with
              | none =>
                simp only [hfind]
                exact hInv.2.2.2.2.1 d hd
              | some e =>
                simp only [hfind]
                exact hInv.2.2.2.2.1 d hd
            · exact hInv

/-- `requestClipsGroup` preserves well-formedness. -/
theorem group_op_inv (m : Model) (cids : List Nat) (m' : Model) (g : Nat)
    (h : requestClipsGroup m cids = .ok (m', g)) (hInv : Inv m) : Inv m' := by
  unfold requestClipsGroup at h
  split at h
  · cases h
  · split at h
    · cases h
    · split at h
      · cases h
      · injection h with h1
        have h2 := congrArg Prod.fst h1
        dsimp at h2
        rw [← h2]
        exact groups_inv m _ hInv

/-- `requestClipDeletion` preserves well-formedness. -/
theorem delete_inv (m : Model) (cid : Nat) (m' : Model)
    (h : requestClipDeletion m cid = .ok m') (hInv : Inv m) : Inv m' := by
  unfold requestClipDeletion at h
  cases hc : findClip m cid with
  | none => rw [hc] at h; cases h
  | some c =>
    rw [hc] at h
    simp only [] at h
    injection h with h1
    rw [← h1]
    exact refresh_inv _ (filter_clips_groups_inv m _ _ hInv)

/-- Every public operation preserves well-formedness. -/
theorem applyOp_inv (m : Model) (op : Op) (m' : Model)
    (h : applyOp m op = .ok m') (hInv : Inv m) : Inv m' := by
  cases op with
  | insert a t p =>
    simp only [applyOp] at h
    cases hr : requestClipInsertion m a t p with
    | error e => rw [hr] at h; cases h
    | ok r =>
      rw [hr] at h
      obtain ⟨mm, cc⟩ := r
      simp only [Except.map] at h
      injection h with h1
      exact h1 ▸ insert_inv m a t p mm cc hr hInv
  | resize c s r =>
    simp only [applyOp] at h
    cases hr : requestItemResize m c s r with
    | error e => rw [hr] at h; cases h
    | ok res =>
      rw [hr] at h
      obtain ⟨mm, sz⟩ := res
      simp only [Except.map] at h
      injection h with h1
      exact h1 ▸ resize_inv m c s r mm sz hr hInv
  | move c t p => exact move_inv m c t p m' h hInv
  | mix c => exact mixClip_inv m c m' h hInv
  | group g =>
    simp only [applyOp] at h
    cases hr : requestClipsGroup m g with
    | error e => rw [hr] at h; cases h
    | ok res =>
      rw [hr] at h
      obtain ⟨mm, gg⟩ := res
      simp only [Except.map] at h
      injection h with h1
      exact h1 ▸ group_op_inv m g mm gg hr hInv
  | delete c => exact delete_inv m c m' h hInv

/-- One successful timeline step preserves well-formedness of the live
model and of every history snapshot. -/
theorem stepE_invT (t t' : TL) (op : Op) (h : stepE t op = .ok t')
    (hI : InvT t) : InvT t' := by
  unfold stepE at h
  cases hap : applyOp t.model op with
  | error e => rw [hap] at h; cases h
  | ok m' =>
    rw [hap] at h
    injection h with h1
    rw [← h1]
    obtain ⟨hm, h2, h3⟩ := hI
    have hm' := applyOp_inv _ _ _ hap hm
    unfold commit InvT
    dsimp only
    refine ⟨hm', ?_, ?_⟩
    · intro e he
      rcases List.mem_cons.mp he with rfl | he
      · exact ⟨hm, hm'⟩
      · exact h2 e he
    · intro e he
      cases he

/-- `undo` preserves well-formedness. -/
theorem undo_invT (t : TL) (hI : InvT t) : InvT (undo t) := by
  obtain ⟨hm, h2, h3⟩ := hI
  unfold undo
  split
  · exact ⟨hm, h2, h3⟩
  next e rest heq =>
    refine ⟨(h2 e (by rw [heq]; exact List.mem_cons_self e rest)).1, ?_, ?_⟩
    · intro e' he'
      exact h2 e' (by rw [heq]; exact List.mem_cons_of_mem e he')
    · intro e' he'
      rcases List.mem_cons.mp he' with rfl | he'
      · exact h2 e' (by rw [heq]; exact List.mem_cons_self _ _)
      · exact h3 e' he'

/-- `redo` preserves well-formedness. -/
theorem redo_invT (t : TL) (hI : InvT t) : InvT (redo t) := by
  obtain ⟨hm, h2, h3⟩ := hI
  unfold redo
  split
  · exact ⟨hm, h2, h3⟩
  next e rest heq =>
    refine ⟨(h3 e (by rw [heq]; exact List.mem_cons_self e rest)).2, ?_, ?_⟩
    · intro e' he'
      rcases List.mem_cons.mp he' with rfl | he'
      · exact h3 e' (by rw [heq]; exact List.mem_cons_self _ _)
      · exact h2 e' he'
    · intro e' he'
      exact h3 e' (by rw [heq]; exact List.mem_cons_of_mem e he')

/-- Every reachable timeline is well-formed. -/
theorem reachable_invT (t : TL) (h : Reachable t) : InvT t := by
  induction h with
  | init m hc hm =>
    refine ⟨?_, ?_, ?_⟩
    · unfold Inv LaneInv
      rw [hc, hm]
      simp
    · intro e he
      cases he
    · intro e he
      cases he
  | step hr hs ih => exact stepE_invT _ _ _ hs ih
  | undo hr ih => exact undo_invT _ ih
  | redo hr ih => exact redo_invT _ ih

/-! ## C9: the lane discipline on every reachable state -/

/-- C9: on every reachable timeline state, a clip occupies lane 1 if
and only if it is the later clip of a currently existing mix: a clip
enters lane 1 only through `mixClip` (which creates the owning mix) and
returns to lane 0 exactly when its mix is destroyed, so lane 1 is never
an initial or terminal state. -/
theorem reachable_lane_iff_mix (t : TL) (h : Reachable t) :
    LaneInv t.model :=
  (reachable_invT t h).1.2.2.2.2.2

/-- Witness for C9: the lane discipline holds for the concrete mixed
state reached by two insertions and a `mixClip`. -/
theorem reachable_lane_iff_mix_witness : LaneInv w3.model :=
  reachable_lane_iff_mix w3
    (@Reachable.step w2 w3 (.mix 1)
      (@Reachable.step w1 w2 (.insert 101 2 520)
        (@Reachable.step w0 w1 (.insert 101 2 500)
          (Reachable.init _ rfl rfl) rfl) rfl) rfl)

/-! ## Shape of a single-clip move -/

theorem findIdx?_get {α : Type _} (p : α → Bool) (l : List α) (i : Nat)
    (h : l.findIdx? p = some i) : ∃ x, l[i]? = some x ∧ p x = true := by
  obtain ⟨hlt, hp, _⟩ := List.findIdx?_eq_some_iff_getElem.mp h
  exact ⟨l[i], List.getElem?_eq_getElem hlt, hp⟩

theorem trackIdx_get (m : Model) (tid : Nat) (i : Nat)
    (h : trackIdx m tid = some i) :
    ∃ tk, m.tracks[i]? = some tk ∧ tk.id = tid := by
  obtain ⟨tk, hget, hp⟩ := findIdx?_get _ _ _ h
  exact ⟨tk, hget, by simpa using hp⟩

/-- Looking a clip up after `applyDests`. -/
theorem findClip_applyDests (m : Model) (dests : List (Clip × Nat × Int))
    (cid : Nat) :
    findClip (applyDests m dests) cid =
      (findClip m cid).map (fun c =>
        match dests.find? (fun e => e.1.id == c.id) with
        | some e => { c with track := e.2.1, pos := e.2.2 }
        | none => c) := by
  unfold applyDests findClip
  exact find?_map_id _ _
    (fun c => by cases dests.find? (fun e => e.1.id == c.id) <;> rfl) cid

/-- `applyDests` preserves well-formedness. -/
theorem applyDests_inv (m : Model) (dests : List (Clip × Nat × Int))
    (hInv : Inv m) : Inv (applyDests m dests) := by
  unfold applyDests
  apply map_clips_inv
  · intro d
    cases hfind : dests.find? (fun e => e.1.id == d.id) with
    | none => simp [hfind]
    | some e => simp [hfind]
  · intro d
    cases hfind : dests.find? (fun e => e.1.id == d.id) with
    | none => simp [hfind]
    | some e => simp [hfind]
  · intro d hd
    cases hfind : dests.find? (fun e => e.1.id == d.id) with
    | none =>
      simp only [hfind]
      exact hInv.2.2.2.2.1 d hd
    | some e =>
      simp only [hfind]
      exact hInv.2.2.2.2.1 d hd
  · exact hInv

/-- A successful move of an ungrouped, partnerless clip is exactly: put
the clip at the requested track and offset position, then run the
cascade. -/
theorem single_move_shape (m : Model) (c : Clip) (cid tid : Nat) (pos : Int)
    (m' : Model)
    (hc : findClip m cid = some c)
    (hcg : m.groups.find? (fun g => g.contains cid) = none)
    (hcp : c.partner = none)
    (h : requestClipMove m cid tid pos = .ok m') :
    m' = refreshMixes (applyDests m [(c, tid, c.pos + (pos - c.pos))]) := by
  have hms : movedSet m cid = [cid] := by
    unfold movedSet
    rw [hcg]
    simp [hc, hcp, dedupIds]
  unfold requestClipMove at h
  rw [hc] at h
  simp only [] at h
  cases hs : trackIdx m c.track with
  | none => rw [hs] at h; cases h
  | some src =>
    rw [hs] at h
    simp only [] at h
    cases hd : trackIdx m tid with
    | none => rw [hd] at h; cases h
    | some dst =>
      rw [hd] at h
      simp only [] at h
      rw [hms] at h
      cases hcdl : computeDests m ((dst : Int) - (src : Int)) (pos - c.pos)
          [cid] with
      | error e => rw [hcdl] at h; cases h
      | ok dests =>
        rw [hcdl] at h
        unfold computeDests at hcdl
        rw [hc] at hcdl
        simp only [] at hcdl
        rw [hs] at hcdl
        simp only [] at hcdl
        split at hcdl
        · cases hcdl
        next hj0 =>
          cases hget : m.tracks[((src : Int) + ((dst : Int) - (src : Int))).toNat]? with
          | none => rw [hget] at hcdl; cases hcdl
          | some tk =>
            rw [hget] at hcdl
            simp only [] at hcdl
            split at hcdl
            · cases hcdl
            · split at hcdl
              · cases hcdl
              · simp only [computeDests] at hcdl
                injection hcdl with hdl
                have hjj : ((src : Int) + ((dst : Int) - (src : Int))).toNat = dst := by
                  omega
                rw [hjj] at hget
                obtain ⟨tk', hget', htk'⟩ := trackIdx_get m tid dst hd
                rw [hget'] at hget
                injection hget with hgeq
                rw [← hdl] at h
                simp only [] at h
                split at h
                · cases h
                · injection h with h1
                  rw [← h1, ← hgeq, htk']

/-! ## C6: moves that break the pairing destroy the mix -/

/-- C6: for a clip linked by a mix, not grouped and without an
audio-video partner, `requestClipMove` destroys the mix whenever the
move breaks the pairing: moving either clip within the same track so
that the overlap with the partner becomes zero or negative destroys the
mix and resets the later clip's lane to 0, and moving the later clip to
a different track (without the partner) destroys the mix, both tracks
ending with mix count 0 when it was the only mix. -/
theorem move_breaking_mix_destroys (m : Model) (x : Mix) (a b : Clip)
    (hInv : Inv m)
    (hx : x ∈ m.mixes)
    (hxne : x.earlier ≠ x.later)
    (ha : findClip m x.earlier = some a) (hb : findClip m x.later = some b)
    (hgb : m.groups.find? (fun g => g.contains x.later) = none)
    (hpb : b.partner = none)
    (hga : m.groups.find? (fun g => g.contains x.earlier) = none)
    (hpa : a.partner = none) :
    (∀ pos m', requestClipMove m x.later b.track pos = .ok m' →
       overlaps a.pos a.len pos b.len = false →
       hasLaterMix m' x.later = false ∧ getClipLane m' x.later = some 0) ∧
    (∀ pos m', requestClipMove m x.earlier a.track pos = .ok m' →
       overlaps pos a.len b.pos b.len = false →
       hasLaterMix m' x.later = false ∧ getClipLane m' x.later = some 0) ∧
    (∀ tid pos m', requestClipMove m x.later tid pos = .ok m' →
       tid ≠ a.track →
       hasLaterMix m' x.later = false ∧ getClipLane m' x.later = some 0 ∧
       (m.mixes = [x] → mixCount m' a.track = 0 ∧ mixCount m' tid = 0)) := by
  have haid : a.id = x.earlier := by simpa using List.find?_some ha
  have hbid : b.id = x.later := by simpa using List.find?_some hb
  have hidne : (b.id == a.id) = false := by
    rw [haid, hbid]
    simpa using fun he => hxne he.symm
  have hidne' : (a.id == b.id) = false := by
    rw [haid, hbid]
    simpa using hxne
  refine ⟨?_, ?_, ?_⟩
  · intro pos m' hmv hov
    have hshape := single_move_shape m b x.later b.track pos m' hb hgb hpb hmv
    have hInv2 : Inv (applyDests m [(b, b.track, b.pos + (pos - b.pos))]) :=
      applyDests_inv m _ hInv
    have hfb2 : findClip (applyDests m [(b, b.track, b.pos + (pos - b.pos))])
        x.later = some { b with track := b.track, pos := b.pos + (pos - b.pos) } := by
      rw [findClip_applyDests, hb]
      simp [List.find?]
    have hfa2 : findClip (applyDests m [(b, b.track, b.pos + (pos - b.pos))])
        x.earlier = some a := by
      rw [findClip_applyDests, ha]
      simp [List.find?, hidne]
    have hbad : mixValid (applyDests m [(b, b.track, b.pos + (pos - b.pos))])
        x = false := by
      unfold mixValid
      rw [hfa2, hfb2]
      dsimp only
      have hpp : b.pos + (pos - b.pos) = pos := by ring
      rw [hpp, hov]
      simp
    have hdes := refresh_destroys _ x _ hInv2.2.1 hInv2.1 hx hbad
      (List.mem_of_find?_eq_some hfb2) (by dsimp only; exact hbid)
    rw [hshape]
    exact ⟨hdes.1, hdes.2⟩
  · intro pos m' hmv hov
    have hshape := single_move_shape m a x.earlier a.track pos m' ha hga hpa hmv
    have hInv2 : Inv (applyDests m [(a, a.track, a.pos + (pos - a.pos))]) :=
      applyDests_inv m _ hInv
    have hfa2 : findClip (applyDests m [(a, a.track, a.pos + (pos - a.pos))])
        x.earlier = some { a with track := a.track, pos := a.pos + (pos - a.pos) } := by
      rw [findClip_applyDests, ha]
      simp [List.find?]
    have hfb2 : findClip (applyDests m [(a, a.track, a.pos + (pos - a.pos))])
        x.later = some b := by
      rw [findClip_applyDests, hb]
      simp [List.find?, hidne']
    have hbad : mixValid (applyDests m [(a, a.track, a.pos + (pos - a.pos))])
        x = false := by
      unfold mixValid
      rw [hfa2, hfb2]
      dsimp only
      have hpp : a.pos + (pos - a.pos) = pos := by ring
      rw [hpp, hov]
      simp
    have hdes := refresh_destroys _ x _ hInv2.2.1 hInv2.1 hx hbad
      (List.mem_of_find?_eq_some hfb2) hbid
    rw [hshape]
    exact ⟨hdes.1, hdes.2⟩
  · intro tid pos m' hmv htid
    have hshape := single_move_shape m b x.later tid pos m' hb hgb hpb hmv
    have hInv2 : Inv (applyDests m [(b, tid, b.pos + (pos - b.pos))]) :=
      applyDests_inv m _ hInv
    have hfb2 : findClip (applyDests m [(b, tid, b.pos + (pos - b.pos))])
        x.later = some { b with track := tid, pos := b.pos + (pos - b.pos) } := by
      rw [findClip_applyDests, hb]
      simp [List.find?]
    have hfa2 : findClip (applyDests m [(b, tid, b.pos + (pos - b.pos))])
        x.earlier = some a := by
      rw [findClip_applyDests, ha]
      simp [List.find?, hidne]
    have hbad : mixValid (applyDests m [(b, tid, b.pos + (pos - b.pos))])
        x = false := by
      unfold mixValid
      rw [hfa2, hfb2]
      dsimp only
      have htr : (a.track == tid) = false := by
        simpa using fun he => htid he.symm
      rw [htr]
      simp
    have hdes := refresh_destroys _ x _ hInv2.2.1 hInv2.1 hx hbad
      (List.mem_of_find?_eq_some hfb2) (by dsimp only; exact hbid)
    rw [hshape]
    refine ⟨hdes.1, hdes.2, ?_⟩
    intro hmx
    have hmixes : (refreshMixes
        (applyDests m [(b, tid, b.pos + (pos - b.pos))])).mixes = [] := by
      unfold refreshMixes
      dsimp only
      have hmx2 : (applyDests m [(b, tid, b.pos + (pos - b.pos))]).mixes = [x] := hmx
      rw [hmx2]
      simp only [List.filter_cons, List.filter_nil, hbad]
      simp
    constructor <;>
    · unfold mixCount
      rw [hmixes]
      rfl

/-- Witness for C6: moving the mixed later color clip from position 508
to 600 on its own track leaves no overlap, so the mix is destroyed and
the clip returns to lane 0. -/
theorem move_breaking_mix_destroys_witness :
    hasLaterMix tM600.model 15 = false ∧ getClipLane tM600.model 15 = some 0 :=
  (move_breaking_mix_destroys tMixColor.model ⟨16, 2, 14, 15, 12, 13⟩
    ⟨14, 2, 500, 33, 0, .video, none⟩ ⟨15, 2, 508, 32, 1, .video, none⟩
    (by unfold Inv LaneInv; decide) (by decide) (by decide) (by decide)
    (by decide) (by decide) (by decide) (by decide) (by decide)).1
    600 tM600.model rfl (by decide)

end Timeline
